import Mathlib

/-!
Shallow embedding of `bin/collect-todos.py`, a script that scans sibling
repositories for TODO/FIXME/BUG comment markers and aggregates them into a
Markdown report (optionally JSON), exiting 1 when a "critical" finding is
detected.  Definitions mirror the Python source; theorems settle the spec
claims against them.
-/

namespace CollectTodos

/-- Characters of the regex class `\s` (ASCII model of Python whitespace). -/
def isSpaceChar (c : Char) : Bool :=
  c = ' ' || c = '\t' || c = '\n' || c = '\r' || c = '\x0b' || c = '\x0c'

/-- Characters of the regex class `\w` (ASCII model): letters, digits, underscore. -/
def isWordChar (c : Char) : Bool :=
  ('a' ≤ c && c ≤ 'z') || ('A' ≤ c && c ≤ 'Z') || ('0' ≤ c && c ≤ '9') || c = '_'

/-- Python `str.strip()` (ASCII whitespace model). -/
def pstrip (s : String) : String :=
  ⟨((s.data.dropWhile isSpaceChar).reverse.dropWhile isSpaceChar).reverse⟩

/-- Python `str.lower()` (ASCII model). -/
def pyLower (s : String) : String := ⟨s.data.map Char.toLower⟩

/-- Boolean list membership via decidable equality. -/
def memB [DecidableEq α] (x : α) (l : List α) : Bool := l.any (fun y => decide (y = x))

/-- `needle` occurs as a leading segment of the second list. -/
def prefixB [DecidableEq α] : List α → List α → Bool
  | [], _ => true
  | _ :: _, [] => false
  | a :: as, b :: bs => decide (a = b) && prefixB as bs

/-- `needle` occurs as a contiguous segment of the second list. -/
def substrB [DecidableEq α] (needle : List α) : List α → Bool
  | [] => needle.isEmpty
  | b :: bs => prefixB needle (b :: bs) || substrB needle bs

/-- Python `needle in hay` on strings. -/
def strContains (hay needle : String) : Bool := substrB needle.data hay.data

/-! ### The line regex `TODO_PATTERN`

The pattern from the source is

`(?xi) (?P<pre>^|\s|[^\w]) (?P<marker>TODO|FIXME|BUG)`
`(?:\s*[:\-\s]\s*|\s*\(\s*(?P<tag>[^)]+)\s*\)\s*[:\-]?\s*)? (?P<text>.*?)$`

applied with `re.search` to each line.  The functions below implement the
backtracking semantics of this specific pattern: leftmost match start wins,
alternatives in written order, greedy star with backtracking inside the
separator/tag group, and the lazy tail running to the end of the line. -/

/-- Case-insensitive literal match, returning the consumed characters as they
appear in the input together with the remaining input. -/
def matchCI : List Char → List Char → Option (List Char × List Char)
  | [], rest => some ([], rest)
  | _ :: _, [] => none
  | p :: ps, c :: cs =>
    if c.toLower = p.toLower then
      match matchCI ps cs with
      | some (m, rest) => some (c :: m, rest)
      | none => none
    else none

/-- The marker alternation `TODO|FIXME|BUG`, alternatives in written order. -/
def tryMarker (cs : List Char) : Option (List Char × List Char) :=
  match matchCI "TODO".data cs with
  | some r => some r
  | none =>
    match matchCI "FIXME".data cs with
    | some r => some r
    | none => matchCI "BUG".data cs

/-- First alternative of the optional group: `\s*[:\-\s]\s*` with greedy
backtracking.  Returns the input remaining after the group on success. -/
def sepBranch (cs : List Char) : Option (List Char) :=
  let rest := cs.dropWhile isSpaceChar
  match rest with
  | c :: rs =>
    if c = ':' || c = '-' then some (rs.dropWhile isSpaceChar)
    else if rest.length < cs.length then some rest else none
  | [] => if cs.isEmpty then none else some []

/-- Second alternative of the optional group:
`\s*\(\s*(?P<tag>[^)]+)\s*\)\s*[:\-]?\s*`.  Returns the captured tag
characters and the input remaining after the group. -/
def tagBranch (cs : List Char) : Option (List Char × List Char) :=
  match cs.dropWhile isSpaceChar with
  | '(' :: rs =>
    let s := rs.takeWhile (fun c => c != ')')
    match rs.dropWhile (fun c => c != ')') with
    | ')' :: rs2 =>
      if s.isEmpty then none
      else
        let lead := (s.takeWhile isSpaceChar).length
        let tag := if lead = s.length then s.drop (s.length - 1) else s.drop lead
        let u := rs2.dropWhile isSpaceChar
        let u2 := match u with
          | c :: us => if c = ':' || c = '-' then us.dropWhile isSpaceChar else u
          | [] => ([] : List Char)
        some (tag, u2)
    | _ => none
  | _ => none

/-- The optional separator-or-tag group, alternatives in written order;
matching empty when both alternatives fail. -/
def afterMarker (cs : List Char) : Option (List Char) × List Char :=
  match sepBranch cs with
  | some rest => (none, rest)
  | none =>
    match tagBranch cs with
    | some (tag, rest) => (some tag, rest)
    | none => (none, cs)

/-- Captured groups of a successful `TODO_PATTERN` match. -/
structure MatchResult where
  marker : String
  tag : Option String
  text : String
deriving DecidableEq, Repr

/-- Attempt the part of the pattern from the marker onwards at the current
position; the lazy `(?P<text>.*?)$` consumes the rest of the line. -/
def runMarker (cs : List Char) : Option MatchResult :=
  match tryMarker cs with
  | none => none
  | some (mk, rest) =>
    let tr := afterMarker rest
    some { marker := ⟨mk⟩, tag := tr.1.map (fun l => (⟨l⟩ : String)), text := ⟨tr.2⟩ }

/-- Attempt the whole pattern at the current position: the boundary
alternation `^|\s|[^\w]` followed by the marker. -/
def matchHere (atStart : Bool) (cs : List Char) : Option MatchResult :=
  match (if atStart then runMarker cs else none) with
  | some r => some r
  | none =>
    match cs with
    | c :: rest => if isWordChar c then none else runMarker rest
    | [] => none

/-- `re.search`: try each start position from the left. -/
def findMatchAux (atStart : Bool) : List Char → Option MatchResult
  | [] => matchHere atStart []
  | c :: rest =>
    match matchHere atStart (c :: rest) with
    | some r => some r
    | none => findMatchAux false rest

/-- `TODO_PATTERN.search(line)` for a line without its trailing newline. -/
def findMatch (line : String) : Option MatchResult := findMatchAux true line.data

/-- One row of `scan_file`'s result. -/
structure Entry where
  line : Nat
  marker : String
  tag : String
  text : String
  preview : String
deriving DecidableEq, Repr

/-- The per-line loop of `scan_file`, with 1-based line numbers. -/
def scanLinesFrom (markers : List String) : Nat → List String → List Entry
  | _, [] => []
  | i, l :: rest =>
    (match findMatch l with
     | none => []
     | some r =>
       if memB r.marker markers then
         [{ line := i, marker := r.marker,
            tag := match r.tag with | some t => pstrip t | none => "",
            text := pstrip r.text, preview := pstrip l }]
       else [])
    ++ scanLinesFrom markers (i + 1) rest

/-- `scan_file`: the file content is `none` when reading fails, in which case
the exception handler yields no findings. -/
def scan_file (content : Option (List String)) (markers : List String) : List Entry :=
  match content with
  | none => []
  | some lines => scanLinesFrom markers 1 lines

/-- `DEFAULT_MARKERS` from the source. -/
def DEFAULT_MARKERS : List String := ["TODO", "FIXME", "BUG"]

/-- `DEFAULT_EXCLUDED_DIRS` from the source. -/
def DEFAULT_EXCLUDED_DIRS : List String :=
  [".git", ".hg", ".svn", ".idea", ".vscode",
   "node_modules", "dist", "build", "out", "target", "__pycache__", ".venv", "venv",
   ".next", ".turbo", ".tox", ".mypy_cache", ".pytest_cache"]

/-- `DEFAULT_INCLUDE_EXTS` from the source. -/
def DEFAULT_INCLUDE_EXTS : List String :=
  [".py", ".kt", ".java", ".go", ".ts", ".tsx", ".js", ".jsx",
   ".rb", ".rs", ".c", ".h", ".cpp", ".hpp", ".cs",
   ".yaml", ".yml", ".json", ".sh", ".bash", ".zsh",
   ".md", ".txt", ".toml", ".ini", ".tf", ".tfvars", ".dockerfile", "dockerfile"]

/-- `CRITICAL_WORDS` from the source. -/
def CRITICAL_WORDS : List String :=
  ["urgent", "blocker", "security", "prod", "production", "p0", "sev1", "severe"]

/-- `looks_critical`: the lowercased text contains some critical word. -/
def looks_critical (text : String) : Bool :=
  CRITICAL_WORDS.any (fun w => strContains (pyLower text) w)

/-- Bytes kept by the `textchars` table of `is_binary_file`:
`{7, 8, 9, 10, 12, 13, 27}` together with `range(0x20, 0x100)`. -/
def textchar (b : Nat) : Bool :=
  decide (b = 7) || decide (b = 8) || decide (b = 9) || decide (b = 10) ||
  decide (b = 12) || decide (b = 13) || decide (b = 27) ||
  (decide (32 ≤ b) && decide (b < 256))

/-- `is_binary_file`: sample the first 1KB; binary when the sample holds a NUL
byte or any byte outside the text table; unreadable files count as binary. -/
def is_binary_file : Option (List Nat) → Bool
  | none => true
  | some bytes =>
    let chunk := bytes.take 1024
    chunk.any (fun b => decide (b = 0)) || chunk.any (fun b => !textchar b)

/-- `pathlib` suffix of a file name: from the last dot, provided that dot is
neither the first nor the last character. -/
def suffixOf (name : String) : String :=
  let cs := name.data
  match cs.reverse.findIdx? (fun c => decide (c = '.')) with
  | none => ""
  | some j =>
    let i := cs.length - 1 - j
    if 0 < i ∧ i < cs.length - 1 then ⟨cs.drop i⟩ else ""

/-- The allow-list key of a file: its lowercased suffix, or the whole
lowercased name when there is no suffix (matching e.g. `dockerfile`). -/
def extKey (name : String) : String :=
  let s := suffixOf name
  if s = "" then pyLower name else pyLower s

/-- `should_exclude_dir`: listed names, and hidden directories whose name
starts with a dot (other than the literal `.`). -/
def shouldExcludeDir (dirname : String) (excluded : List String) : Bool :=
  memB dirname excluded || (prefixB ".".data dirname.data && decide (dirname ≠ "."))

/-- A file in the modelled filesystem: `bytes` is the raw content used by the
binary sniff (`none` when opening for bytes fails) and `text` is the decoded
line list used by `scan_file` (`none` when opening for text fails). -/
structure FileNode where
  name : String
  bytes : Option (List Nat)
  text : Option (List String)
deriving DecidableEq, Repr

mutual
/-- A directory tree rooted at a repo directory. -/
inductive Tree where
  | node (dirName : String) (dirs : TreeList) (files : List FileNode)
/-- The sub-directory list of a directory. -/
inductive TreeList where
  | nil
  | cons (d : Tree) (ds : TreeList)
end

/-- The name of a directory node. -/
def Tree.nameOf : Tree → String
  | .node n _ _ => n

mutual
/-- `collect_files` over a repo tree: `os.walk` top-down with directory
pruning, keeping allow-listed non-binary files.  Each result carries the
sub-directory path from the repo root. -/
def collectT (inc exc : List String) : Tree → List (List String × FileNode)
  | .node _ dirs files =>
    (files.filter (fun f => memB (extKey f.name) inc && !is_binary_file f.bytes)).map
      (fun f => (([] : List String), f))
    ++ collectL inc exc dirs
/-- The walk over a pruned sub-directory list. -/
def collectL (inc exc : List String) : TreeList → List (List String × FileNode)
  | .nil => []
  | .cons d ds =>
    (if shouldExcludeDir d.nameOf exc then []
     else (collectT inc exc d).map (fun pf => (d.nameOf :: pf.1, pf.2)))
    ++ collectL inc exc ds
end

mutual
/-- The directories that `os.walk` visits (as paths from the repo root),
with excluded directories pruned before descending. -/
def visitedT (exc : List String) : Tree → List (List String)
  | .node _ dirs _ => ([] : List String) :: visitedL exc dirs
/-- Visited directories below a pruned sub-directory list. -/
def visitedL (exc : List String) : TreeList → List (List String)
  | .nil => []
  | .cons d ds =>
    (if shouldExcludeDir d.nameOf exc then []
     else (visitedT exc d).map (fun q => d.nameOf :: q))
    ++ visitedL exc ds
end

/-! ### Remote detection and link construction -/

/-- Python `str.split(sep)` for a one-character separator. -/
def splitChar (c : Char) : List Char → List (List Char)
  | [] => [[]]
  | x :: xs =>
    let r := splitChar c xs
    if x = c then [] :: r
    else
      match r with
      | h :: t => (x :: h) :: t
      | [] => [[x]]

/-- Python `s.split(c)` on strings. -/
def pySplit (c : Char) (s : String) : List String :=
  (splitChar c s.data).map (fun l => (⟨l⟩ : String))

/-- Python `s.split("/")[-1]`. -/
def lastSeg (s : String) : String := ((pySplit '/' s).getLast?).getD ""

/-- The text after the first occurrence of `c` (Python `s.split(c, 1)[1]`). -/
def afterChar (c : Char) (s : String) : String :=
  ⟨(s.data.dropWhile (fun x => x != c)).drop 1⟩

/-- Python `s.split(c, 1)` when `c` occurs, `none` otherwise (the unpacking
`ValueError` path of the source). -/
def splitFirst (c : Char) (s : String) : Option (String × String) :=
  if s.data.contains c then
    some (⟨s.data.takeWhile (fun x => x != c)⟩, ⟨(s.data.dropWhile (fun x => x != c)).drop 1⟩)
  else none

/-- Boolean `startswith`. -/
def startsWithB (s pat : String) : Bool := prefixB pat.data s.data

/-- Boolean `endswith`. -/
def endsWithB (s pat : String) : Bool := prefixB pat.data.reverse s.data.reverse

/-- Strip a trailing `.git` from the remote URL. -/
def normalizeUrl (u : String) : String :=
  if endsWithB u ".git" then ⟨u.data.take (u.data.length - 4)⟩ else u

/-- Parse the two accepted remote URL shapes into host and org/repo. -/
def parseHostOrg (url : String) : Option (String × String) :=
  if startsWithB url "git@" then
    splitFirst ':' (afterChar '@' url)
  else if startsWithB url "https://" || startsWithB url "http://" then
    let parts := pySplit '/' url
    if 5 ≤ parts.length then some (parts.getD 2 "", (parts.getD 3 "") ++ "/" ++ parts.getD 4 "")
    else none
  else none

/-- Results of the three read-only git invocations made per repo; `none`
models a failing invocation. -/
structure GitEnv where
  remoteUrl : Option String
  symbolicRef : Option String
  revParse : Option String
deriving DecidableEq, Repr

/-- The dictionary returned by `detect_remote_info`. -/
structure RemoteInfo where
  host : String
  orgrepo : String
  repo : String
  default_branch : String
deriving DecidableEq, Repr

/-- The branch resolution of `detect_remote_info`: last path segment of the
origin HEAD symbolic ref, else the current branch name, else `"main"`. -/
def resolveBranch (g : GitEnv) : String :=
  match g.symbolicRef with
  | some s => lastSeg (pstrip s)
  | none =>
    match g.revParse with
    | some b => pstrip b
    | none => "main"

/-- `detect_remote_info`: best-effort host/org/repo/branch, `none` on any
failure. -/
def detect_remote_info (g : GitEnv) : Option RemoteInfo :=
  match g.remoteUrl with
  | none => none
  | some raw =>
    match parseHostOrg (normalizeUrl (pstrip raw)) with
    | none => none
    | some hp =>
      if hp.1 = "" ∨ hp.2 = "" then none
      else some { host := hp.1, orgrepo := hp.2, repo := lastSeg hp.2,
                  default_branch := resolveBranch g }

/-- The three hosting providers of `LINE_LINK_TEMPLATES`. -/
inductive Provider where
  | github
  | gitlab
  | azure
deriving DecidableEq, Repr

/-- `LINE_LINK_TEMPLATES`: provider key substrings in source order. -/
def LINE_LINK_TEMPLATES : List (String × Provider) :=
  [("github.com", Provider.github), ("gitlab.com", Provider.gitlab),
   ("dev.azure.com", Provider.azure)]

/-- Filling a provider's URL template. -/
def fillTemplate : Provider → RemoteInfo → String → String → Nat → String
  | .github, r, branch, path, lineNo =>
    "https://" ++ r.host ++ "/" ++ r.orgrepo ++ "/blob/" ++ branch ++ "/" ++ path
      ++ "#L" ++ toString lineNo
  | .gitlab, r, branch, path, lineNo =>
    "https://" ++ r.host ++ "/" ++ r.orgrepo ++ "/-/blob/" ++ branch ++ "/" ++ path
      ++ "#L" ++ toString lineNo
  | .azure, r, branch, path, lineNo =>
    "https://" ++ r.host ++ "/" ++ r.orgrepo ++ "/_git/" ++ r.repo ++ "?path=/" ++ path
      ++ "&version=GB" ++ branch ++ "&line=" ++ toString lineNo

/-- `build_line_link`: the first template whose key occurs inside the host,
filled in; `none` when no key matches. -/
def build_line_link (remote : RemoteInfo) (branch relPath : String) (lineNo : Nat) : Option String :=
  match LINE_LINK_TEMPLATES.find? (fun ht => strContains remote.host ht.1) with
  | some ht => some (fillTemplate ht.2 remote branch relPath lineNo)
  | none => none

/-! ### The main pipeline -/

/-- The resolved settings of a run (the values `main` derives from CLI flags). -/
structure Config where
  markers : List String
  includeExts : List String
  excludedDirs : List String
  noRemoteLinks : Bool
  branchArg : String

/-- One configured repo name together with what the filesystem and git show
for it: `fs = none` models a name that is not a directory under the root. -/
structure RepoSpec where
  name : String
  fs : Option Tree
  git : GitEnv

/-- One row of the aggregation dictionary. -/
structure Row where
  file : String
  line : Nat
  marker : String
  tag : String
  text : String
  preview : String
  link : String
  repo : String
deriving DecidableEq, Repr

/-- `rel_from_repo.replace("\\", "/")`. -/
def slashify (s : String) : String :=
  ⟨s.data.map (fun c => if c = '\\' then '/' else c)⟩

/-- Join path segments with `/`. -/
def joinWith (sep : String) : List String → String
  | [] => ""
  | [x] => x
  | x :: y :: xs => x ++ sep ++ joinWith sep (y :: xs)

/-- The path of a collected file relative to its repo directory. -/
def relJoin (p : List String) (fname : String) : String := joinWith "/" (p ++ [fname])

/-- The remote info `main` uses for a repo (suppressed by `--no-remote-links`). -/
def repoRemote (cfg : Config) (r : RepoSpec) : Option RemoteInfo :=
  if cfg.noRemoteLinks then none else detect_remote_info r.git

/-- The branch `main` uses for a repo's links. -/
def repoBranch (cfg : Config) (r : RepoSpec) : String :=
  if cfg.branchArg ≠ "" then cfg.branchArg
  else
    match repoRemote cfg r with
    | some ri => ri.default_branch
    | none => "main"

/-- The rows `main` appends for one collected file of a repo. -/
def rowsOfFile (cfg : Config) (repoName : String) (remote : Option RemoteInfo)
    (branch : String) (pf : List String × FileNode) : List Row :=
  let rel := slashify (relJoin pf.1 pf.2.name)
  (scan_file pf.2.text cfg.markers).map (fun e =>
    let link := match remote with
      | some ri => if cfg.noRemoteLinks then none else build_line_link ri branch rel e.line
      | none => none
    { file := rel, line := e.line, marker := e.marker, tag := e.tag, text := e.text,
      preview := e.preview, link := link.getD "", repo := repoName })

/-- The per-repo body of `main`'s loop; a repo whose directory is missing is
skipped via `continue`. -/
def processRepo (cfg : Config) (r : RepoSpec) : List Row :=
  match r.fs with
  | none => []
  | some t =>
    (collectT cfg.includeExts cfg.excludedDirs t).flatMap
      (rowsOfFile cfg r.name (repoRemote cfg r) (repoBranch cfg r))

/-- Lexicographic `≤` on character lists (Python string comparison). -/
def charsLe : List Char → List Char → Bool
  | [], _ => true
  | _ :: _, [] => false
  | a :: as, b :: bs => if a = b then charsLe as bs else decide (a < b)

/-- Python `≤` on strings. -/
def strLeB (a b : String) : Bool := charsLe a.data b.data

/-- Python `<` on strings. -/
def strLtB (a b : String) : Bool := strLeB a b && decide (a ≠ b)

/-- `≤` on the sort key `(marker, file, line)` of findings. -/
def rowLeB (x y : Row) : Bool :=
  if x.marker = y.marker then
    if x.file = y.file then decide (x.line ≤ y.line) else strLtB x.file y.file
  else strLtB x.marker y.marker

/-- Insert into a sorted list, keeping earlier elements first on ties
(stability of Python's sort). -/
def insertBy (le : α → α → Bool) (x : α) : List α → List α
  | [] => [x]
  | y :: ys => if le x y then x :: y :: ys else y :: insertBy le x ys

/-- Stable insertion sort (Python `sorted`/`list.sort`). -/
def sortBy (le : α → α → Bool) : List α → List α
  | [] => []
  | x :: xs => insertBy le x (sortBy le xs)

/-- `aggregated.setdefault(repo, []).append(row)` on an insertion-ordered
dictionary modelled as an association list with distinct keys. -/
def dictAppend (agg : List (String × List Row)) (key : String) (row : Row) :
    List (String × List Row) :=
  if agg.any (fun kv => decide (kv.1 = key)) then
    agg.map (fun kv => if kv.1 = key then (kv.1, kv.2 ++ [row]) else kv)
  else agg ++ [(key, [row])]

/-- `total_count`. -/
def totalCount (agg : List (String × List Row)) : Nat :=
  (agg.map (fun kv => kv.2.length)).sum

/-- One Markdown bullet for a finding. -/
def bulletOf (it : Row) : String :=
  let tagStr := if it.tag = "" then "" else " **[" ++ it.tag ++ "]**"
  let location := if it.link = "" then "`" ++ it.file ++ ":" ++ toString it.line ++ "`" else it.link
  let preview2 := if it.text = "" then it.preview else it.text
  "- " ++ location ++ tagStr ++ " — " ++ preview2

/-- The sorted distinct marker kinds of a repo's findings (`sorted(by_marker.keys())`). -/
def markerKeys (items : List Row) : List String :=
  sortBy strLeB (items.map (fun it => it.marker)).dedup

/-- One marker sub-section of a repo's Markdown section. -/
def markerSection (items : List Row) (m : String) : List String :=
  let group := items.filter (fun it => decide (it.marker = m))
  ("### " ++ m ++ " (" ++ toString group.length ++ ")") :: "" :: group.map bulletOf ++ [""]

/-- The Markdown section of one repo with findings. -/
def repoSection (kv : String × List Row) : List String :=
  ("## " ++ kv.1 ++ " (" ++ toString kv.2.length ++ ")") :: "" ::
  (markerKeys kv.2).flatMap (markerSection kv.2) ++ [""]

/-- The Markdown lines `main` writes (the timestamp is a parameter). -/
def renderMd (now rootStr : String) (repoNames markers : List String)
    (agg : List (String × List Row)) : List String :=
  ["# Consolidated TODOs", "",
   "- Generated: " ++ now ++ "Z",
   "- Root scanned: `" ++ rootStr ++ "`",
   "- Repos scanned: " ++ (if repoNames.isEmpty then "(none)" else joinWith ", " repoNames),
   "- Markers: " ++ joinWith ", " markers,
   ""]
  ++ [("**Total items:** " ++ toString (totalCount agg))]
  ++ (if totalCount agg = 0 then ["", "> 🎉 No TODO-like markers found in the scanned repositories."] else [])
  ++ [""]
  ++ (sortBy (fun a b => strLeB a.1 b.1) agg).flatMap repoSection

/-- A whole run of `main`: the produced findings, the aggregated report, the
rendered Markdown, and the process exit code. -/
structure RunResult where
  rows : List Row
  aggregated : List (String × List Row)
  mdLines : List String
  exit : Nat

/-- `main` as a function of the resolved configuration, the configured repo
names with what disk and git show for them, the frozen timestamp and the
resolved root path. -/
def mainRun (cfg : Config) (repos : List RepoSpec) (now rootStr : String) : RunResult :=
  let rows := (sortBy (fun a b => strLeB a.name b.name) repos).flatMap (processRepo cfg)
  let agg := (rows.foldl (fun a r => dictAppend a r.repo r) []).map
    (fun kv => (kv.1, sortBy rowLeB kv.2))
  { rows := rows, aggregated := agg,
    mdLines := renderMd now rootStr (repos.map (fun r => r.name)) cfg.markers agg,
    exit := if rows.any (fun r => looks_critical r.text) then 1 else 0 }

/-- The configuration resulting from the default CLI flags. -/
def defaultConfig : Config :=
  { markers := DEFAULT_MARKERS, includeExts := DEFAULT_INCLUDE_EXTS,
    excludedDirs := DEFAULT_EXCLUDED_DIRS, noRemoteLinks := false, branchArg := "" }

/-! ### Concrete fixtures used by witnesses and counterexamples -/

/-- A configured repo whose directory exists but holds no files at all. -/
def emptyRepoSpec : RepoSpec :=
  { name := "empty", fs := some (.node "empty" .nil []), git := ⟨none, none, none⟩ }

/-- A repo with a single one-line Python file holding one TODO. -/
def oneFindingRepo : RepoSpec :=
  { name := "r1",
    fs := some (.node "r1" .nil [{ name := "a.py", bytes := some [], text := some ["# TODO: x"] }]),
    git := ⟨none, none, none⟩ }

/-- The single aggregated row produced by `oneFindingRepo`. -/
def oneFindingRow : Row :=
  { file := "a.py", line := 1, marker := "TODO", tag := "", text := "x",
    preview := "# TODO: x", link := "", repo := "r1" }

/-- The report entry produced by `oneFindingRepo`. -/
def oneFindingKv : String × List Row := ("r1", [oneFindingRow])

/-- A vendored file inside a `node_modules` directory. -/
def vendorFile : FileNode :=
  { name := "lib.py", bytes := some [], text := some ["# TODO: vendored"] }

/-- A repo tree whose only file sits inside `node_modules`. -/
def vendorTree : Tree :=
  .node "r1" (.cons (.node "node_modules" .nil [vendorFile]) .nil) []

/-- A file whose byte stream cannot be opened (sniffed as binary). -/
def unreadableBytesFile : FileNode :=
  { name := "blob.py", bytes := none, text := some ["# TODO: x"] }

/-- A file whose text stream cannot be opened (`scan_file` read failure). -/
def unreadableTextFile : FileNode :=
  { name := "a.py", bytes := some [], text := none }

/-- A git environment with an SSH remote and a recorded origin HEAD. -/
def sshGitEnv : GitEnv :=
  ⟨some "git@github.com:org/myrepo.git", some "refs/remotes/origin/main", none⟩

/-- The remote info detected from `sshGitEnv`. -/
def sshRemoteInfo : RemoteInfo :=
  { host := "github.com", orgrepo := "org/myrepo", repo := "myrepo", default_branch := "main" }

/-- A remote whose host merely contains `github.com` as a substring. -/
def oddHostRemote : RemoteInfo :=
  { host := "github.com.example.org", orgrepo := "o/r", repo := "r", default_branch := "main" }

/-- A configured repo name with no directory on disk. -/
def ghostRepo : RepoSpec := { name := "ghost", fs := none, git := ⟨none, none, none⟩ }

/-! ### Supporting lemmas -/

theorem memB_eq_true {α} [DecidableEq α] {x : α} {l : List α} :
    memB x l = true ↔ x ∈ l := by
  simp only [memB, List.any_eq_true, decide_eq_true_eq]
  exact ⟨fun ⟨y, hy, he⟩ => he ▸ hy, fun h => ⟨x, h, rfl⟩⟩

theorem looks_critical_iff (t : String) :
    looks_critical t = true ↔ ∃ w ∈ CRITICAL_WORDS, strContains (pyLower t) w = true := by
  simp [looks_critical, List.any_eq_true]

theorem mem_insertBy {α} (le : α → α → Bool) (x a : α) :
    ∀ l : List α, a ∈ insertBy le x l ↔ a = x ∨ a ∈ l := by
  intro l
  induction l with
  | nil => simp [insertBy]
  | cons y ys ih =>
    by_cases h : le x y = true
    · simp [insertBy, h]
    · simp only [insertBy, if_neg h, List.mem_cons, ih]
      tauto

theorem mem_sortBy {α} (le : α → α → Bool) (a : α) :
    ∀ l : List α, a ∈ sortBy le l ↔ a ∈ l := by
  intro l
  induction l with
  | nil => simp [sortBy]
  | cons y ys ih => simp [sortBy, mem_insertBy, ih]

theorem length_insertBy {α} (le : α → α → Bool) (x : α) :
    ∀ l : List α, (insertBy le x l).length = l.length + 1 := by
  intro l
  induction l with
  | nil => rfl
  | cons y ys ih =>
    by_cases h : le x y = true
    · simp [insertBy, h]
    · simp [insertBy, h, ih]

theorem length_sortBy {α} (le : α → α → Bool) :
    ∀ l : List α, (sortBy le l).length = l.length := by
  intro l
  induction l with
  | nil => rfl
  | cons y ys ih => simp [sortBy, length_insertBy, ih]

theorem flatMap_filter_eq {α β} (f : α → List β) (p : α → Bool) :
    ∀ l : List α, (∀ x ∈ l, p x = false → f x = []) →
      (l.filter p).flatMap f = l.flatMap f := by
  intro l
  induction l with
  | nil => intro _; rfl
  | cons a as ih =>
    intro h
    have ht := ih (fun x hx => h x (List.mem_cons_of_mem a hx))
    rcases hp : p a with _ | _
    · simp [List.filter_cons, hp, h a (List.mem_cons_self a as) hp, ht]
    · simp [List.filter_cons, hp, ht]

theorem dictAppend_nonempty (agg : List (String × List Row)) (key : String) (row : Row)
    (h : ∀ kv ∈ agg, kv.2 ≠ []) :
    ∀ kv ∈ dictAppend agg key row, kv.2 ≠ [] := by
  intro kv hkv
  unfold dictAppend at hkv
  split at hkv
  · rcases List.mem_map.mp hkv with ⟨kv0, h0, he⟩
    by_cases hk : kv0.1 = key
    · rw [if_pos hk] at he
      rw [← he]
      simp
    · rw [if_neg hk] at he
      exact he ▸ h kv0 h0
  · rcases List.mem_append.mp hkv with h0 | h0
    · exact h kv h0
    · rcases List.mem_singleton.mp h0 with rfl
      simp

theorem agg_fold_nonempty :
    ∀ (rows : List Row) (agg : List (String × List Row)),
      (∀ kv ∈ agg, kv.2 ≠ []) →
      ∀ kv ∈ rows.foldl (fun a r => dictAppend a r.repo r) agg, kv.2 ≠ [] := by
  intro rows
  induction rows with
  | nil => intro agg h kv hkv; exact h kv hkv
  | cons r rs ih =>
    intro agg h kv hkv
    rw [List.foldl_cons] at hkv
    exact ih _ (dictAppend_nonempty agg r.repo r h) kv hkv

theorem bool_eq_false {b : Bool} (h : ¬ b = true) : b = false := by
  rcases b with _ | _
  · rfl
  · exact absurd rfl h

theorem mainRun_exit_one_iff (cfg : Config) (repos : List RepoSpec) (now rootStr : String) :
    (mainRun cfg repos now rootStr).exit = 1 ↔
      ∃ row ∈ (mainRun cfg repos now rootStr).rows, looks_critical row.text = true := by
  have h : (mainRun cfg repos now rootStr).exit =
      if (mainRun cfg repos now rootStr).rows.any (fun x => looks_critical x.text) then 1 else 0 := rfl
  rcases ha : (mainRun cfg repos now rootStr).rows.any (fun x => looks_critical x.text) with _ | _
  · rw [h, ha]
    constructor
    · intro h01
      exact absurd h01 (by decide)
    · intro hex
      obtain ⟨row, hrow, hc⟩ := hex
      have hany : (mainRun cfg repos now rootStr).rows.any (fun x => looks_critical x.text) = true := by
        rw [List.any_eq_true]
        exact ⟨row, hrow, hc⟩
      rw [ha] at hany
      cases hany
  · rw [h, ha]
    constructor
    · intro _
      exact List.any_eq_true.mp ha
    · intro _
      rfl

mutual
theorem collectT_sound (inc exc : List String) :
    ∀ (t : Tree) (p : List String) (f : FileNode), (p, f) ∈ collectT inc exc t →
      (∀ d ∈ p, shouldExcludeDir d exc = false) ∧
      memB (extKey f.name) inc = true ∧ is_binary_file f.bytes = false
  | .node _ dirs files, p, f, h => by
    rw [collectT] at h
    rcases List.mem_append.mp h with h1 | h2
    · rcases List.mem_map.mp h1 with ⟨g, hg, he⟩
      obtain ⟨hgmem, hcond⟩ := List.mem_filter.mp hg
      rw [Bool.and_eq_true] at hcond
      obtain ⟨hext, hbin⟩ := hcond
      have he2 : (([] : List String), g) = (p, f) := he
      injection he2 with hp hf
      refine ⟨?_, ?_, ?_⟩
      · intro d hd; rw [← hp] at hd; cases hd
      · rw [← hf]; exact hext
      · rw [← hf]
        rcases hx : is_binary_file g.bytes with _ | _
        · rfl
        · rw [hx] at hbin; cases hbin
    · exact collectL_sound inc exc dirs p f h2
theorem collectL_sound (inc exc : List String) :
    ∀ (ds : TreeList) (p : List String) (f : FileNode), (p, f) ∈ collectL inc exc ds →
      (∀ d ∈ p, shouldExcludeDir d exc = false) ∧
      memB (extKey f.name) inc = true ∧ is_binary_file f.bytes = false
  | .nil, p, f, h => by rw [collectL] at h; cases h
  | .cons d ds, p, f, h => by
    rw [collectL] at h
    rcases List.mem_append.mp h with h1 | h2
    · by_cases hex : shouldExcludeDir d.nameOf exc = true
      · rw [if_pos hex] at h1; cases h1
      · rw [if_neg hex] at h1
        rcases List.mem_map.mp h1 with ⟨pf, hpf, he⟩
        obtain ⟨p', f'⟩ := pf
        obtain ⟨hq, hext, hbin⟩ := collectT_sound inc exc d p' f' hpf
        have he2 : (d.nameOf :: p', f') = (p, f) := he
        injection he2 with hp hf
        refine ⟨?_, hf ▸ hext, hf ▸ hbin⟩
        intro x hx
        rw [← hp] at hx
        rcases List.mem_cons.mp hx with rfl | hx2
        · exact bool_eq_false hex
        · exact hq x hx2
    · exact collectL_sound inc exc ds p f h2
end

mutual
theorem visitedT_sound (exc : List String) :
    ∀ (t : Tree) (q : List String), q ∈ visitedT exc t →
      ∀ d ∈ q, shouldExcludeDir d exc = false
  | .node _ dirs _, q, h => by
    rw [visitedT] at h
    rcases List.mem_cons.mp h with rfl | h2
    · intro d hd; cases hd
    · exact visitedL_sound exc dirs q h2
theorem visitedL_sound (exc : List String) :
    ∀ (ds : TreeList) (q : List String), q ∈ visitedL exc ds →
      ∀ d ∈ q, shouldExcludeDir d exc = false
  | .nil, q, h => by rw [visitedL] at h; cases h
  | .cons d ds, q, h => by
    rw [visitedL] at h
    rcases List.mem_append.mp h with h1 | h2
    · by_cases hex : shouldExcludeDir d.nameOf exc = true
      · rw [if_pos hex] at h1; cases h1
      · rw [if_neg hex] at h1
        rcases List.mem_map.mp h1 with ⟨q0, hq0, he⟩
        have hsub := visitedT_sound exc d q0 hq0
        intro x hx
        rw [← he] at hx
        rcases List.mem_cons.mp hx with rfl | hx2
        · exact bool_eq_false hex
        · exact hsub x hx2
    · exact visitedL_sound exc ds q h2
end

/-! ### Claim theorems -/

/-- Claim C1: the process exit code is 1 if and only if at least one produced
finding's message text, lowercased, contains some keyword of the fixed
critical-keyword set as a substring; otherwise the exit code is 0. -/
theorem exit_code_iff_critical_finding (cfg : Config) (repos : List RepoSpec)
    (now rootStr : String) :
    ((mainRun cfg repos now rootStr).exit = 1 ↔
      ∃ row ∈ (mainRun cfg repos now rootStr).rows,
        ∃ w ∈ CRITICAL_WORDS, strContains (pyLower row.text) w = true) ∧
    ((mainRun cfg repos now rootStr).exit = 0 ↔
      ¬ ∃ row ∈ (mainRun cfg repos now rootStr).rows,
        ∃ w ∈ CRITICAL_WORDS, strContains (pyLower row.text) w = true) := by
  have h1 := mainRun_exit_one_iff cfg repos now rootStr
  have hiff : (∃ row ∈ (mainRun cfg repos now rootStr).rows, looks_critical row.text = true) ↔
      (∃ row ∈ (mainRun cfg repos now rootStr).rows,
        ∃ w ∈ CRITICAL_WORDS, strContains (pyLower row.text) w = true) := by
    constructor
    · intro ⟨row, hr, hc⟩
      exact ⟨row, hr, (looks_critical_iff row.text).mp hc⟩
    · intro ⟨row, hr, hc⟩
      exact ⟨row, hr, (looks_critical_iff row.text).mpr hc⟩
  have hmain := h1.trans hiff
  refine ⟨hmain, ?_⟩
  have hexit : (mainRun cfg repos now rootStr).exit = 1 ∨ (mainRun cfg repos now rootStr).exit = 0 := by
    have h : (mainRun cfg repos now rootStr).exit =
        if (mainRun cfg repos now rootStr).rows.any (fun x => looks_critical x.text) then 1 else 0 := rfl
    rcases ha : (mainRun cfg repos now rootStr).rows.any (fun x => looks_critical x.text) with _ | _
    · right; rw [h, ha]; rfl
    · left; rw [h, ha]; rfl
  constructor
  · intro h0 hex
    have h01 := hmain.mpr hex
    rw [h0] at h01
    cases h01
  · intro hnex
    rcases hexit with he1 | he0
    · exact absurd (hmain.mp he1) hnex
    · exact he0

/-- Claim C2 (code-bug evidence): the regex matches markers case-insensitively
and the configured markers are upper-cased, but `scan_file` compares the raw
matched marker against that list without normalizing, so a lower-case marker
line yields no finding while the upper-case line yields one. -/
theorem lowercase_marker_line_yields_no_finding :
    scan_file (some ["# todo: fix"]) DEFAULT_MARKERS = [] ∧
    scan_file (some ["# TODO: fix"]) DEFAULT_MARKERS =
      [{ line := 1, marker := "TODO", tag := "", text := "fix", preview := "# TODO: fix" }] :=
  ⟨rfl, rfl⟩

/-- Claim C3 counterexample: a repo directory with zero eligible files gets no
Report entry at all (rather than an entry with an empty list) and no per-repo
Markdown heading with count 0. -/
theorem zero_finding_repo_has_no_report_entry_or_heading :
    (mainRun defaultConfig [emptyRepoSpec] "2024-01-01T00:00:00" "/root").aggregated = [] ∧
    memB "## empty (0)"
      (mainRun defaultConfig [emptyRepoSpec] "2024-01-01T00:00:00" "/root").mdLines = false :=
  ⟨rfl, rfl⟩

/-- Claim C3 (amended): every Report entry carries a nonempty finding list and
receives a per-repo Markdown heading with its (positive) count; a repo with
zero findings has no Report entry and hence no section. -/
theorem report_entries_nonempty_with_heading (cfg : Config) (repos : List RepoSpec)
    (now rootStr : String) (kv : String × List Row)
    (hkv : kv ∈ (mainRun cfg repos now rootStr).aggregated) :
    kv.2 ≠ [] ∧
    ("## " ++ kv.1 ++ " (" ++ toString kv.2.length ++ ")")
      ∈ (mainRun cfg repos now rootStr).mdLines := by
  constructor
  · have hagg : (mainRun cfg repos now rootStr).aggregated =
        ((mainRun cfg repos now rootStr).rows.foldl (fun a r => dictAppend a r.repo r) []).map
          (fun kv => (kv.1, sortBy rowLeB kv.2)) := rfl
    rw [hagg] at hkv
    rcases List.mem_map.mp hkv with ⟨kv0, h0, he⟩
    have hne := agg_fold_nonempty (mainRun cfg repos now rootStr).rows []
      (by intro kv2 hkv2; cases hkv2) kv0 h0
    rw [← he]
    intro hcontra
    have hcontra2 : sortBy rowLeB kv0.2 = [] := hcontra
    have hl := length_sortBy rowLeB kv0.2
    rw [hcontra2] at hl
    exact hne (List.eq_nil_of_length_eq_zero hl.symm)
  · have hmd : (mainRun cfg repos now rootStr).mdLines =
        renderMd now rootStr (repos.map (fun r => r.name)) cfg.markers
          (mainRun cfg repos now rootStr).aggregated := rfl
    rw [hmd]
    unfold renderMd
    apply List.mem_append.mpr
    right
    apply List.mem_flatMap.mpr
    refine ⟨kv, ?_, ?_⟩
    · exact (mem_sortBy _ kv _).mpr hkv
    · exact List.mem_cons_self _ _

/-- Witness for the amended C3 theorem at a one-finding run. -/
theorem report_entries_nonempty_with_heading_witness :
    oneFindingKv ∈ (mainRun defaultConfig [oneFindingRepo] "2024-01-01T00:00:00" "/root").aggregated ∧
    (oneFindingKv.2 ≠ [] ∧
      ("## " ++ oneFindingKv.1 ++ " (" ++ toString oneFindingKv.2.length ++ ")")
        ∈ (mainRun defaultConfig [oneFindingRepo] "2024-01-01T00:00:00" "/root").mdLines) :=
  ⟨by decide,
    report_entries_nonempty_with_heading defaultConfig [oneFindingRepo]
      "2024-01-01T00:00:00" "/root" oneFindingKv (by decide)⟩

/-- Claim C4: a file inside an excluded directory, or with a disallowed
extension, is never collected; the walk never visits a directory path holding
an excluded component; and every produced row stems from a collected file. -/
theorem excluded_or_disallowed_files_yield_no_finding (cfg : Config) (t : Tree)
    (p : List String) (f : FileNode)
    (h : (∃ d ∈ p, shouldExcludeDir d cfg.excludedDirs = true) ∨
      memB (extKey f.name) cfg.includeExts = false) :
    (p, f) ∉ collectT cfg.includeExts cfg.excludedDirs t ∧
    (∀ q ∈ visitedT cfg.excludedDirs t, ∀ d ∈ q, shouldExcludeDir d cfg.excludedDirs = false) ∧
    (∀ r : RepoSpec, r.fs = some t → ∀ row ∈ processRepo cfg r,
      ∃ pf ∈ collectT cfg.includeExts cfg.excludedDirs t,
        row ∈ rowsOfFile cfg r.name (repoRemote cfg r) (repoBranch cfg r) pf) := by
  refine ⟨?_, ?_, ?_⟩
  · intro hmem
    obtain ⟨hq, hext, _⟩ := collectT_sound cfg.includeExts cfg.excludedDirs t p f hmem
    rcases h with ⟨d, hd, hdex⟩ | hext2
    · rw [hq d hd] at hdex
      cases hdex
    · rw [hext] at hext2
      cases hext2
  · intro q hq
    exact visitedT_sound cfg.excludedDirs t q hq
  · intro r hr row hrow
    unfold processRepo at hrow
    rw [hr] at hrow
    exact List.mem_flatMap.mp hrow

/-- Witness for C4: a TODO-bearing file under `node_modules` is not collected. -/
theorem excluded_or_disallowed_files_yield_no_finding_witness :
    ((∃ d ∈ ["node_modules"], shouldExcludeDir d defaultConfig.excludedDirs = true) ∨
      memB (extKey vendorFile.name) defaultConfig.includeExts = false) ∧
    (["node_modules"], vendorFile) ∉
      collectT defaultConfig.includeExts defaultConfig.excludedDirs vendorTree :=
  ⟨by decide,
    (excluded_or_disallowed_files_yield_no_finding defaultConfig vendorTree
      ["node_modules"] vendorFile (by decide)).1⟩

/-- Claim C5: a file whose first-1KB sample holds a NUL byte or any byte
outside the printable/whitespace allow-list, or which is unreadable, is
classified binary and never collected, whatever its extension. -/
theorem binary_sniffed_files_yield_no_finding (f : FileNode)
    (h : f.bytes = none ∨ ∃ bs, f.bytes = some bs ∧
      ((0 : Nat) ∈ bs.take 1024 ∨ ∃ b ∈ bs.take 1024, textchar b = false)) :
    is_binary_file f.bytes = true ∧
    ∀ (inc exc : List String) (t : Tree) (p : List String),
      (p, f) ∉ collectT inc exc t := by
  have hbin : is_binary_file f.bytes = true := by
    rcases h with hnone | ⟨bs, hbs, hcase⟩
    · rw [hnone]; rfl
    · rw [hbs]
      show ((bs.take 1024).any (fun b => decide (b = 0)) ||
        (bs.take 1024).any (fun b => !textchar b)) = true
      rcases hcase with h0 | ⟨b, hb, htc⟩
      · have h2 : (bs.take 1024).any (fun b => decide (b = 0)) = true := by
          rw [List.any_eq_true]
          exact ⟨0, h0, by rfl⟩
        rw [h2]
        rfl
      · have h2 : (bs.take 1024).any (fun b => !textchar b) = true := by
          rw [List.any_eq_true]
          refine ⟨b, hb, ?_⟩
          show (!textchar b) = true
          rw [htc]
          rfl
        rw [h2]
        exact Bool.or_true _
  refine ⟨hbin, ?_⟩
  intro inc exc t p hmem
  obtain ⟨-, -, hbf⟩ := collectT_sound inc exc t p f hmem
  rw [hbin] at hbf
  cases hbf

/-- Witness for C5: an unreadable byte stream counts as binary. -/
theorem binary_sniffed_files_yield_no_finding_witness :
    (unreadableBytesFile.bytes = none ∨ ∃ bs, unreadableBytesFile.bytes = some bs ∧
      ((0 : Nat) ∈ bs.take 1024 ∨ ∃ b ∈ bs.take 1024, textchar b = false)) ∧
    is_binary_file unreadableBytesFile.bytes = true :=
  ⟨Or.inl rfl, (binary_sniffed_files_yield_no_finding unreadableBytesFile (Or.inl rfl)).1⟩

/-- Claim C6: the two scenario lines of the spec produce exactly the stated
single findings under the default marker set. -/
theorem scenario_todo_alice_and_fixme_lines :
    scan_file (some ["// TODO(alice): fix race condition"]) DEFAULT_MARKERS =
      [{ line := 1, marker := "TODO", tag := "alice", text := "fix race condition",
         preview := "// TODO(alice): fix race condition" }] ∧
    scan_file (some ["# FIXME - handle null case"]) DEFAULT_MARKERS =
      [{ line := 1, marker := "FIXME", tag := "", text := "handle null case",
         preview := "# FIXME - handle null case" }] :=
  ⟨rfl, rfl⟩

/-- Claim C7: a read failure yields zero findings for that file, raises no
error, and leaves the findings of all other files unchanged. -/
theorem unreadable_file_yields_no_findings (f : FileNode) (hf : f.text = none)
    (markers : List String) :
    scan_file f.text markers = [] ∧
    ∀ (cfg : Config) (rn : String) (remote : Option RemoteInfo) (branch : String)
      (pre post : List (List String × FileNode)) (p : List String),
      (pre ++ (p, f) :: post).flatMap (rowsOfFile cfg rn remote branch) =
        (pre ++ post).flatMap (rowsOfFile cfg rn remote branch) := by
  have h1 : ∀ ms : List String, scan_file f.text ms = [] := by
    intro ms
    rw [hf]
    rfl
  refine ⟨h1 markers, ?_⟩
  intro cfg rn remote branch pre post p
  have h2 : rowsOfFile cfg rn remote branch (p, f) = [] := by
    simp [rowsOfFile, hf, scan_file]
  rw [List.flatMap_append, List.flatMap_append, List.flatMap_cons, h2]
  simp

/-- Witness for C7 at a concrete unreadable file. -/
theorem unreadable_file_yields_no_findings_witness :
    unreadableTextFile.text = none ∧
    scan_file unreadableTextFile.text DEFAULT_MARKERS = [] :=
  ⟨rfl, (unreadable_file_yields_no_findings unreadableTextFile rfl DEFAULT_MARKERS).1⟩

/-- Claim C8: when remote detection succeeds, the branch is the last path
segment of the remote's recorded default branch ref when that git call
succeeds, else the current local branch name, else the literal `main`. -/
theorem branch_resolution_preference (g : GitEnv) (ri : RemoteInfo)
    (h : detect_remote_info g = some ri) :
    ri.default_branch = resolveBranch g ∧
    (∀ s, g.symbolicRef = some s → ri.default_branch = lastSeg (pstrip s)) ∧
    (g.symbolicRef = none → ∀ b, g.revParse = some b → ri.default_branch = pstrip b) ∧
    (g.symbolicRef = none → g.revParse = none → ri.default_branch = "main") := by
  have hdb : ri.default_branch = resolveBranch g := by
    rcases hu : g.remoteUrl with _ | raw
    · simp [detect_remote_info, hu] at h
    · rcases hp : parseHostOrg (normalizeUrl (pstrip raw)) with _ | hp2
      · simp [detect_remote_info, hu, hp] at h
      · by_cases hz : hp2.1 = "" ∨ hp2.2 = ""
        · simp [detect_remote_info, hu, hp, hz] at h
        · simp [detect_remote_info, hu, hp, hz] at h
          rw [← h]
  refine ⟨hdb, ?_, ?_, ?_⟩
  · intro s hs
    rw [hdb]
    simp [resolveBranch, hs]
  · intro hn b hb
    rw [hdb]
    simp [resolveBranch, hn, hb]
  · intro hn hb
    rw [hdb]
    simp [resolveBranch, hn, hb]

/-- Witness for C8: an SSH remote with a recorded origin HEAD resolves to its
last path segment. -/
theorem branch_resolution_preference_witness :
    detect_remote_info sshGitEnv = some sshRemoteInfo ∧
    sshRemoteInfo.default_branch = lastSeg (pstrip "refs/remotes/origin/main") :=
  ⟨by decide,
    (branch_resolution_preference sshGitEnv sshRemoteInfo (by decide)).2.1
      "refs/remotes/origin/main" rfl⟩

/-- Claim C9: link-template selection is a substring test on the detected
host: the link is absent exactly when no provider key occurs inside the host,
and any host containing `github.com` selects the GitHub template. -/
theorem link_template_substring_selection (remote : RemoteInfo)
    (branch relPath : String) (lineNo : Nat) :
    ((build_line_link remote branch relPath lineNo = none) ↔
      ∀ ht ∈ LINE_LINK_TEMPLATES, strContains remote.host ht.1 = false) ∧
    (strContains remote.host "github.com" = true →
      build_line_link remote branch relPath lineNo =
        some (fillTemplate Provider.github remote branch relPath lineNo)) := by
  constructor
  · constructor
    · intro hnone ht hmem
      unfold build_line_link at hnone
      rcases hf : LINE_LINK_TEMPLATES.find? (fun x => strContains remote.host x.1) with _ | x
      · have hall := List.find?_eq_none.mp hf ht hmem
        exact bool_eq_false hall
      · rw [hf] at hnone
        simp at hnone
    · intro hall
      unfold build_line_link
      rcases hf : LINE_LINK_TEMPLATES.find? (fun x => strContains remote.host x.1) with _ | x
      · rw [hf]
      · have hx := List.find?_some hf
        have hxmem := List.mem_of_find?_eq_some hf
        rw [hall x hxmem] at hx
        cases hx
  · intro hgh
    unfold build_line_link
    have hfind : LINE_LINK_TEMPLATES.find? (fun x => strContains remote.host x.1) =
        some ("github.com", Provider.github) := by
      unfold LINE_LINK_TEMPLATES
      rw [List.find?_cons_of_pos]
      exact hgh
    rw [hfind]

/-- Witness for C9: a host merely containing `github.com` gets a GitHub link. -/
theorem link_template_substring_selection_witness :
    strContains oddHostRemote.host "github.com" = true ∧
    build_line_link oddHostRemote "main" "a.py" 3 =
      some (fillTemplate Provider.github oddHostRemote "main" "a.py" 3) :=
  ⟨by decide, (link_template_substring_selection oddHostRemote "main" "a.py" 3).2 (by decide)⟩

/-- Claim C10: a configured repo name with no directory under the root is
skipped silently: it contributes no rows, the run's rows come only from repos
whose directory exists, the exit code is still governed solely by critical
findings, yet the name appears in the Repos-scanned metadata line. -/
theorem missing_repo_dir_skipped_but_listed (cfg : Config) (repos : List RepoSpec)
    (now rootStr : String) (r : RepoSpec) (hmem : r ∈ repos) (hfs : r.fs = none) :
    processRepo cfg r = [] ∧
    (mainRun cfg repos now rootStr).rows =
      ((sortBy (fun a b => strLeB a.name b.name) repos).filter
        (fun x => x.fs.isSome)).flatMap (processRepo cfg) ∧
    r.name ∈ repos.map (fun x => x.name) ∧
    ("- Repos scanned: " ++ joinWith ", " (repos.map (fun x => x.name)))
      ∈ (mainRun cfg repos now rootStr).mdLines ∧
    ((mainRun cfg repos now rootStr).exit = 1 ↔
      ∃ row ∈ (mainRun cfg repos now rootStr).rows, looks_critical row.text = true) := by
  have hpr : processRepo cfg r = [] := by
    simp [processRepo, hfs]
  refine ⟨hpr, ?_, ?_, ?_, ?_⟩
  · have hrows : (mainRun cfg repos now rootStr).rows =
        (sortBy (fun a b => strLeB a.name b.name) repos).flatMap (processRepo cfg) := rfl
    rw [hrows]
    symm
    apply flatMap_filter_eq
    intro x hx hpx
    rcases hfx : x.fs with _ | t2
    · simp [processRepo, hfx]
    · rw [hfx] at hpx
      simp at hpx
  · exact List.mem_map.mpr ⟨r, hmem, rfl⟩
  · have hmd : (mainRun cfg repos now rootStr).mdLines =
        renderMd now rootStr (repos.map (fun x => x.name)) cfg.markers
          (mainRun cfg repos now rootStr).aggregated := rfl
    rw [hmd]
    have hne : (repos.map (fun x => x.name)).isEmpty = false := by
      rcases repos with _ | ⟨a, as⟩
      · cases hmem
      · rfl
    simp only [renderMd, hne, Bool.false_eq_true, if_false]
    simp [List.mem_append]
  · exact mainRun_exit_one_iff cfg repos now rootStr

/-- Witness for C10 at a concrete missing repo. -/
theorem missing_repo_dir_skipped_but_listed_witness :
    (ghostRepo ∈ [ghostRepo] ∧ ghostRepo.fs = none) ∧
    processRepo defaultConfig ghostRepo = [] :=
  ⟨⟨List.mem_singleton.mpr rfl, rfl⟩,
    (missing_repo_dir_skipped_but_listed defaultConfig [ghostRepo]
      "2024-01-01T00:00:00" "/root" ghostRepo (List.mem_singleton.mpr rfl) rfl).1⟩

end CollectTodos
